import Mathlib

/-!
Verification of the sstable codec in `src/sstables/sstables.cc` against its
natural-language specification.  Every definition below is a shallow
embedding of a function of that file (names follow the source); bytes are
`Nat` (0..255), file contents are `List Char`, futures/exceptions become
`Except SstError`.  Asynchronous sequencing collapses to sequential
evaluation, which is faithful because the scheduler is cooperative and all
operations on one sstable are strictly sequenced.
-/

namespace Sstables

deriving instance DecidableEq for Except

/-- The error kinds the source can raise.  `malformed` is
`malformed_sstable_exception`; `bufsizeMismatch` is
`bufsize_mismatch_exception`, which in the source is a subclass of
`malformed_sstable_exception` (carrying the got/expected sizes);
`systemError` is `std::system_error` with its errno (raised by the I/O
engine, never constructed by the codec itself); `outOfRange` is
`std::out_of_range`; `overflow` is `std::overflow_error` from
`check_truncate_and_assign`; `assertFailed` models a failed `assert`.
There is no separate file-not-found exception type in the source. -/
inductive SstError where
  | malformed (msg : String)
  | bufsizeMismatch (got expected : Nat)
  | systemError (errno : Nat)
  | outOfRange (msg : String)
  | overflow
  | assertFailed (msg : String)
deriving DecidableEq

/-- `sstable::component_type` (sstables.cc lines 84-94 list the name map). -/
inductive ComponentType where
  | Index
  | CompressionInfo
  | Data
  | TOC
  | Summary
  | Digest
  | CRC
  | Filter
  | Statistics
deriving DecidableEq

/-- `sstable::_component_map` (sstables.cc:84-94). -/
def component_map : List (ComponentType × String) :=
  [ (ComponentType.Index, "Index.db"),
    (ComponentType.CompressionInfo, "CompressionInfo.db"),
    (ComponentType.Data, "Data.db"),
    (ComponentType.TOC, "TOC.txt"),
    (ComponentType.Summary, "Summary.db"),
    (ComponentType.Digest, "Digest.sha1"),
    (ComponentType.CRC, "CRC.db"),
    (ComponentType.Filter, "Filter.db"),
    (ComponentType.Statistics, "Statistics.db") ]

/-- `reverse_map` (sstables.cc:99-107): linear scan for the key whose mapped
string equals `value`; `none` models the `std::out_of_range` throw, which
`read_toc` rewrites into `malformed_sstable_exception`. -/
def reverse_map (value : String) : Option ComponentType :=
  (component_map.find? (fun p => p.2 = value)).map (fun p => p.1)

/-- `boost::split(comps, buf, boost::is_any_of("\n"))` on the TOC buffer
(sstables.cc:648): split a character list at every newline; an empty input
yields one empty field, a trailing newline yields a trailing empty field. -/
def splitLines : List Char → List (List Char)
  | [] => [[]]
  | c :: rest =>
      if c = '\n' then [] :: splitLines rest
      else
        match splitLines rest with
        | l :: ls => (c :: l) :: ls
        | [] => [[c]]

/-- `std::set<component_type>::insert`: add if absent (sstables.cc:656). -/
def insert_component (cs : List ComponentType) (c : ComponentType) : List ComponentType :=
  if c ∈ cs then cs else cs ++ [c]

/-- The loop over split TOC lines (sstables.cc:650-660): empty lines are
skipped ("accept trailing newlines"); a line that `reverse_map` does not
recognise fails the load with `Unrecognized TOC component: <name>`. -/
def toc_fold : List (List Char) → List ComponentType → Except SstError (List ComponentType)
  | [], acc => .ok acc
  | c :: rest, acc =>
      if c = [] then toc_fold rest acc
      else
        match reverse_map (String.mk c) with
        | some k => toc_fold rest (insert_component acc k)
        | none => .error (.malformed ("Unrecognized TOC component: " ++ String.mk c))

/-- The body of `sstable::read_toc` once the file is open (sstables.cc:633-663):
`dma_read(0, buf, 4096)` delivers `min (file length) 4096` bytes; a delivery
of 4096 or more bytes is refused as `SSTable too big`; then the buffer is
split on newlines and folded; an empty resulting component set is refused as
`Empty TOC`. -/
def read_toc_contents (contents : List Char) : Except SstError (List ComponentType) :=
  let size := min contents.length 4096
  if 4096 ≤ size then
    .error (.malformed ("SSTable too big: " ++ toString size ++ " bytes."))
  else
    match toc_fold (splitLines contents) [] with
    | .error e => .error e
    | .ok comps =>
        if comps.length = 0 then .error (.malformed "Empty TOC") else .ok comps

/-- What the I/O engine reports for a path: the file is absent (open fails
with `std::system_error(ENOENT)`), the open or read fails with some other
`std::system_error`, or the file's contents are delivered. -/
inductive FileResult where
  | absent
  | ioerr (errno : Nat)
  | content (data : List Char)

def ENOENT : Nat := 2

/-- Opening and reading a whole file through the engine: `absent` surfaces
as `systemError ENOENT`, an I/O failure as `systemError errno`. -/
def openRead (fs : String → FileResult) (path : String) : Except SstError (List Char) :=
  match fs path with
  | .absent => .error (.systemError ENOENT)
  | .ioerr e => .error (.systemError e)
  | .content data => .ok data

/-- The `then_wrapped` catch site shared by `read_toc` (sstables.cc:666-674)
and `read_simple` (sstables.cc:794-802): it catches `std::system_error`
only; when the code is ENOENT, it throws
`malformed_sstable_exception(file_path + ": file not found")`; for ANY
OTHER `std::system_error` the catch block falls through without rethrowing,
so the returned future completes successfully and the caller sees `current`
(the sstable state as it was).  Non-system errors propagate unchanged. -/
def catch_not_found {α : Type} (path : String) (body : Except SstError α) (current : α) :
    Except SstError α :=
  match body with
  | .error (.systemError e) =>
      if e = ENOENT then .error (.malformed (path ++ ": file not found"))
      else .ok current
  | r => r

/-- `sstable::read_toc` (sstables.cc:627-676): open the TOC file, read and
parse it, with the catch site applied to the whole chain.  The result is
the component set the call leaves behind; on the swallowed-error path the
set is left as it was (empty). -/
def sstable_read_toc (fs : String → FileResult) (path : String) :
    Except SstError (List ComponentType) :=
  catch_not_found path
    (match openRead fs path with
     | .error e => .error e
     | .ok data => read_toc_contents data)
    []

/-- `sstable::read_simple<Type, T>` (sstables.cc:785-803): open the
component file, parse the component from it, with the same catch site;
`current` is the in-memory component value, which the swallowed-error path
leaves untouched. -/
def sstable_read_simple {α : Type} (fs : String → FileResult) (path : String)
    (parseComponent : List Char → Except SstError α) (current : α) : Except SstError α :=
  catch_not_found path
    (match openRead fs path with
     | .error e => .error e
     | .ok data => parseComponent data)
    current

/-! ## Index entries and `read_indexes` -/

/-- `index_entry`: key as `disk_string<uint16_t>`, position as `uint64_t`,
promoted index as `disk_string<uint32_t>` (parsed at sstables.cc:503-505;
field layout per the spec's component-codec section, the struct itself
living in the header). -/
structure IndexEntry where
  key : List Nat
  position : Nat
  promoted_index : List Nat
deriving DecidableEq

/-- Big-endian value of a byte list (`net::ntoh` on a packed read). -/
def readBE (bs : List Nat) : Nat := bs.foldl (fun acc b => acc * 256 + b) 0

/-- `read_exactly n` followed by `check_buf_size` (sstables.cc:122-126):
consume up to `n` bytes; if fewer were available the stream is exhausted and
a `bufsize_mismatch_exception` carries the got/expected sizes.  Returns the
outcome together with the remaining stream (the failed read consumed
everything that was left). -/
def readExactS (s : List Nat) (n : Nat) : Except SstError (List Nat) × List Nat :=
  let buf := s.take n
  if buf.length < n then (.error (.bufsizeMismatch buf.length n), s.drop n)
  else (.ok buf, s.drop n)

/-- `parse(random_access_reader&, index_entry&)` (sstables.cc:503-505):
u16 key length, key bytes, u64 position, u32 promoted-index length,
promoted-index bytes, each read via `read_exactly` + `check_buf_size`.
Returns the outcome and the remaining stream. -/
def parseIndexEntry (s : List Nat) : Except SstError IndexEntry × List Nat :=
  match readExactS s 2 with
  | (.error e, r) => (.error e, r)
  | (.ok lenb, r1) =>
    match readExactS r1 (readBE lenb) with
    | (.error e, r) => (.error e, r)
    | (.ok key, r2) =>
      match readExactS r2 8 with
      | (.error e, r) => (.error e, r)
      | (.ok posb, r3) =>
        match readExactS r3 4 with
        | (.error e, r) => (.error e, r)
        | (.ok plenb, r4) =>
          match readExactS r4 (readBE plenb) with
          | (.error e, r) => (.error e, r)
          | (.ok pidx, r5) => (.ok ⟨key, readBE posb, pidx⟩, r5)

/-- The `do_until` loop of `sstable::read_indexes` (sstables.cc:745-780):
parse entries until `count ≥ quantity`; on success push the entry and
increment `count`; on a `bufsize_mismatch_exception` the optimistically
emplaced element is popped, and if the stream is at EOF, `count` is capped
to the maximum (exiting the loop, returning the entries parsed so far),
otherwise the exception is rethrown.  Any other exception propagates.
The fuel is the number of successful parses still allowed, i.e.
`quantity - count`. -/
def read_indexes_loop : Nat → List Nat → List IndexEntry → Except SstError (List IndexEntry)
  | 0, _, acc => .ok acc
  | Nat.succ q, s, acc =>
      match parseIndexEntry s with
      | (.ok e, rest) => read_indexes_loop q rest (acc ++ [e])
      | (.error (.bufsizeMismatch g ex), rest) =>
          if rest.isEmpty then .ok acc else .error (.bufsizeMismatch g ex)
      | (.error e, _) => .error e

/-- `sstable::read_indexes(position, quantity)` (sstables.cc:731-783):
seek the shared index-file reader to `position` and run the loop over the
index file's bytes. -/
def read_indexes (data : List Nat) (position quantity : Nat) :
    Except SstError (List IndexEntry) :=
  read_indexes_loop quantity (data.drop position) []

/-! ## Summary -/

/-- `summary_entry`: sampled partition key bytes and its index-file offset. -/
structure SummaryEntry where
  key : List Nat
  position : Nat
deriving DecidableEq

/-- The Summary header: five integer fields
(min_index_interval, size, memory_size, sampling_level,
size_at_full_sampling), in the order both `parse` (sstables.cc:414-418) and
`write` (sstables.cc:483-487) traverse them. -/
structure SummaryHeader where
  min_index_interval : Nat
  size : Nat
  memory_size : Nat
  sampling_level : Nat
  size_at_full_sampling : Nat
deriving DecidableEq

/-- The in-memory `summary` mirror: header, sampled entries, the positions
vector, the running `keys_written` counter used by
`maybe_add_summary_entry`, and the first/last partition keys
(`disk_string` values, here their byte lists). -/
structure Summary where
  header : SummaryHeader
  entries : List SummaryEntry
  positions : List Nat
  keys_written : Nat
  first_key : List Nat
  last_key : List Nat
deriving DecidableEq

/-- A default-constructed `summary` member (all counters zero, all
containers empty), the state `_summary` has before `write_components`. -/
def empty_summary : Summary :=
  { header := { min_index_interval := 0, size := 0, memory_size := 0,
                sampling_level := 0, size_at_full_sampling := 0 },
    entries := [], positions := [], keys_written := 0,
    first_key := [], last_key := [] }

def BASE_SAMPLING_LEVEL : Nat := 128

/-- `prepare_summary` (sstables.cc:1089-1106): requires at least one
expected partition (`assert`), computes
`max_expected_entries = expected / 128 + !!(expected % 128)` and refuses it
above `UINT32_MAX` with `malformed_sstable`; sets the sampling interval
fields and zeroes `keys_written` and `memory_size`.  `reserve` does not
change the (empty) containers. -/
def prepare_summary (expected_partition_count : Nat) : Except SstError Summary :=
  if expected_partition_count < 1 then
    .error (.assertFailed "expected_partition_count >= 1")
  else
    let max_expected_entries :=
      expected_partition_count / BASE_SAMPLING_LEVEL +
        (if expected_partition_count % BASE_SAMPLING_LEVEL = 0 then 0 else 1)
    if 4294967295 < max_expected_entries then
      .error (.malformed ("Current sampling level (" ++ toString BASE_SAMPLING_LEVEL ++
        ") not enough to generate summary."))
    else
      .ok { empty_summary with
            header := { empty_summary.header with
                        min_index_interval := BASE_SAMPLING_LEVEL,
                        sampling_level := BASE_SAMPLING_LEVEL } }

/-- `maybe_add_summary_entry` (sstables.cc:1143-1148): every
`(keys_written mod min_index_interval == 0)`-th key is recorded with the
given (index file) offset; `keys_written` is post-incremented. -/
def maybe_add_summary_entry (s : Summary) (key : List Nat) (offset : Nat) : Summary :=
  if s.keys_written % s.header.min_index_interval = 0 then
    { s with keys_written := s.keys_written + 1,
             entries := s.entries ++ [⟨key, offset⟩] }
  else
    { s with keys_written := s.keys_written + 1 }

/-- `seal_summary` (sstables.cc:1108-1129): set `size` and
`size_at_full_sampling` to the entry count; start `memory_size` at
`size * sizeof(uint32_t)`; for each entry push the running `memory_size`
onto `positions` and then add the entry's `key.size() + sizeof(position)`
(= key length + 8); `assert(first_key)` (the stream must have been
non-empty); `last_key` falls back to `first_key` when no second partition
was seen. -/
def seal_summary (s : Summary) (first_key last_key : Option (List Nat)) :
    Except SstError Summary :=
  let size := s.entries.length
  let folded := s.entries.foldl
    (fun acc e => (acc.1 ++ [acc.2], acc.2 + (e.key.length + 8)))
    (s.positions, size * 4)
  match first_key with
  | none => .error (.assertFailed "seal_summary: first_key")
  | some fk =>
      .ok { s with
            header := { s.header with
                        size := size, size_at_full_sampling := size,
                        memory_size := folded.2 },
            positions := folded.1,
            first_key := fk,
            last_key := match last_key with | some lk => lk | none => fk }

/-- `sstable::read_summary_entry(i)` (sstables.cc:494-501): an index at or
past `entries.size()` throws `std::out_of_range` with the sprinted message;
otherwise the entry is returned (the summary itself is not touched — the
embedding is a pure function of `s`). -/
def read_summary_entry (s : Summary) (i : Nat) : Except SstError SummaryEntry :=
  if h : s.entries.length ≤ i then
    .error (.outOfRange ("Invalid Summary index: " ++ toString i))
  else
    .ok (s.entries.get ⟨i, by omega⟩)

/-! ### The serialized Summary file

Byte-encoding helpers.  Integers written through the variadic `write` are
big-endian (`net::hton`); the summary's `positions` vector and each entry's
`position` are deliberately written in native byte order
(sstables.cc:470-477 and 482-489), modelled as little-endian. -/

def u16BE (n : Nat) : List Nat := [n / 256 % 256, n % 256]

def u32BE (n : Nat) : List Nat :=
  [n / 16777216 % 256, n / 65536 % 256, n / 256 % 256, n % 256]

def u32LE (n : Nat) : List Nat :=
  [n % 256, n / 256 % 256, n / 65536 % 256, n / 16777216 % 256]

def u64BE (n : Nat) : List Nat :=
  (List.range 8).map (fun i => n / 256 ^ (7 - i) % 256)

def u64LE (n : Nat) : List Nat :=
  (List.range 8).map (fun i => n / 256 ^ i % 256)

/-- The positions block `write(file_writer&, summary&)` emits
(sstables.cc:488-489): `out.write(positions.data(),
sizeof(pos_type) * positions.size())` — every element of `positions`, as a
native-endian u32, and nothing else. -/
def summary_positions_on_disk (s : Summary) : List Nat :=
  s.positions.flatMap u32LE

/-- `write(file_writer&, summary_entry&)` (sstables.cc:470-477): raw key
bytes, then the 8-byte native-endian position. -/
def summary_entry_on_disk (e : SummaryEntry) : List Nat :=
  e.key ++ u64LE e.position

/-- `write(file_writer&, summary&)` (sstables.cc:479-492): the five header
fields big-endian (memory_size being the u64 field), the positions block,
the entries, then first_key and last_key as length-prefixed strings.  The
header and key-prefix widths follow the spec's byte-format section (the
struct declarations live in the header file); the claims below depend only
on the positions block. -/
def write_summary (s : Summary) : List Nat :=
  u32BE s.header.min_index_interval ++ u32BE s.header.size ++
  u64BE s.header.memory_size ++ u32BE s.header.sampling_level ++
  u32BE s.header.size_at_full_sampling ++
  summary_positions_on_disk s ++
  s.entries.flatMap summary_entry_on_disk ++
  u32BE s.first_key.length ++ s.first_key ++
  u32BE s.last_key.length ++ s.last_key

/-! ## The write path

`do_write_components` (sstables.cc:1191-1295) consumes the sorted partition
stream.  The embedding keeps the parts of its state the claims are about:
the component set, the summary, the running index-file offset, and the
first/last partition keys.  The Data-file serialization of partition bodies
(tombstones, rows, cells), the bloom filter's bit contents and the
statistics collector are not modelled: the claims below concern the summary,
the index-file offsets (which depend only on key lengths) and the component
set, none of which depend on them. -/

/-- `compressor` values of `schema.get_compressor_params()` (external
interface; `prepare_write_components` only compares against `none`). -/
inductive Compressor where
  | none
  | lz4
  | snappy
  | deflate
deriving DecidableEq

structure WriteState where
  components : List ComponentType
  summary : Summary
  index_offset : Nat
  first_key : Option (List Nat)
  last_key : Option (List Nat)
deriving DecidableEq

instance : Inhabited WriteState :=
  ⟨{ components := [], summary := empty_summary, index_offset := 0,
     first_key := none, last_key := none }⟩

/-- The size in bytes of one index-file record, as `write_index_entry`
(sstables.cc:1080-1085) emits it: u16 key length + key bytes + u64 data
position + u32 promoted-index size (the promoted index itself is empty). -/
def index_entry_disk_size (key : List Nat) : Nat := 2 + key.length + 8 + 4

/-- The byte offset in the Index file at which the `m`-th index record
begins: the records are written back to back, so it is the sum of the disk
sizes of the first `m` records. -/
def index_offset_of (keys : List (List Nat)) (m : Nat) : Nat :=
  ((keys.take m).map index_entry_disk_size).sum

/-- One iteration of the partition loop (sstables.cc:1210-1275), restricted
to the summary/index/first-last state: `maybe_add_summary_entry` is called
with the index writer's current offset, then the index record is written
(advancing the offset by its disk size), and the first/last keys are
tracked (`if (!first_key) first_key = pk; else last_key = pk`). -/
def write_one_partition_pure (st : WriteState) (key : List Nat) : WriteState :=
  { st with
    summary := maybe_add_summary_entry st.summary key st.index_offset,
    index_offset := st.index_offset + index_entry_disk_size key,
    first_key := if st.first_key = none then some key else st.first_key,
    last_key := if st.first_key = none then st.last_key else some key }

/-- The same iteration including the `check_truncate_and_assign` bound:
the partition key is written as a `disk_string_view<uint16_t>` (both in the
index record and in the data file), so a key of 2^16 bytes or more throws
`std::overflow_error` (sstables.cc:128-135, 284-289). -/
def write_one_partition (st : WriteState) (key : List Nat) : Except SstError WriteState :=
  if 65536 ≤ key.length then .error .overflow
  else .ok (write_one_partition_pure st key)

/-- The `while (mutation_opt mut = mr().get0())` loop over the whole
partition stream. -/
def write_partitions : WriteState → List (List Nat) → Except SstError WriteState
  | st, [] => .ok st
  | st, k :: ks =>
      match write_one_partition st k with
      | .error e => .error e
      | .ok st1 => write_partitions st1 ks

def insert_components (cs : List ComponentType) (new : List ComponentType) :
    List ComponentType :=
  new.foldl insert_component cs

/-- `sstable::do_write_components` (sstables.cc:1191-1295): insert Filter
into the component set iff `filter_fp_chance != 1.0`; `prepare_summary`
with the estimated partition count; run the partition loop; `seal_summary`
with the remembered first/last keys; finally insert TOC, Statistics,
Digest, Index, Summary and Data.  The false-positive chance is a C++
`double`, modelled as a rational. -/
def do_write_components (st0 : WriteState) (keys : List (List Nat))
    (estimated_partitions : Nat) (filter_fp_chance : ℚ) : Except SstError WriteState :=
  let st1 :=
    if filter_fp_chance ≠ 1 then
      { st0 with components := insert_component st0.components ComponentType.Filter }
    else st0
  match prepare_summary estimated_partitions with
  | .error e => .error e
  | .ok s =>
      let start : WriteState :=
        { st1 with summary := s, index_offset := 0, first_key := none, last_key := none }
      match write_partitions start keys with
      | .error e => .error e
      | .ok st2 =>
          match seal_summary st2.summary st2.first_key st2.last_key with
          | .error e => .error e
          | .ok sealed =>
              .ok { st2 with
                    summary := sealed,
                    components := insert_components st2.components
                      [ComponentType.TOC, ComponentType.Statistics,
                       ComponentType.Digest, ComponentType.Index,
                       ComponentType.Summary, ComponentType.Data] }

/-- `sstable::prepare_write_components` (sstables.cc:1297-1320): when the
schema's compressor is `none` the data file is checksummed and CRC is
inserted; otherwise compression is prepared and CompressionInfo is
inserted; either way `do_write_components` then runs on a fresh sstable
(empty component set, default summary). -/
def prepare_write_components (keys : List (List Nat)) (estimated_partitions : Nat)
    (filter_fp_chance : ℚ) (comp : Compressor) : Except SstError WriteState :=
  let st0 : WriteState := default
  if comp = Compressor.none then
    do_write_components
      { st0 with components := insert_component st0.components ComponentType.CRC }
      keys estimated_partitions filter_fp_chance
  else
    do_write_components
      { st0 with components := insert_component st0.components ComponentType.CompressionInfo }
      keys estimated_partitions filter_fp_chance

/-! ## Characterisation helpers (used by lemma statements below)

These do not model further source code; they name the values the write
path's state is proved equal to. -/

/-- The summary entries the partition loop accumulates, starting from
`keys_written = c` and index offset `o`: the sampling condition is the one
of `maybe_add_summary_entry`. -/
def loop_entries (interval : Nat) : Nat → Nat → List (List Nat) → List SummaryEntry
  | _, _, [] => []
  | c, o, k :: ks =>
      (if c % interval = 0 then [⟨k, o⟩] else []) ++
        loop_entries interval (c + 1) (o + index_entry_disk_size k) ks

/-- The same accumulation driven by a countdown `d` to the next sampled
key (interval 128): sample when `d = 0`, then reset to 127. -/
def loop_entries_cd : Nat → Nat → List (List Nat) → List SummaryEntry
  | _, _, [] => []
  | 0, o, k :: ks => ⟨k, o⟩ :: loop_entries_cd 127 (o + index_entry_disk_size k) ks
  | d + 1, o, k :: ks => loop_entries_cd d (o + index_entry_disk_size k) ks

/-- The component set a `prepare_write_components` run starts with: CRC for
an uncompressed schema, CompressionInfo otherwise, plus Filter when the
false-positive chance differs from 1. -/
def initial_components (fp : ℚ) (comp : Compressor) : List ComponentType :=
  let base := if comp = Compressor.none then [ComponentType.CRC]
              else [ComponentType.CompressionInfo]
  if fp ≠ 1 then base ++ [ComponentType.Filter] else base

/-- Sum over the entries of `key length + sizeof(u64)`. -/
def summary_entries_size_sum (es : List SummaryEntry) : Nat :=
  (es.map (fun e => e.key.length + 8)).sum

/-! ## Concrete states shared by witnesses and counterexamples -/

/-- A complete single-partition run: one partition with key `[1]`,
estimated count 1, false-positive chance 0, no compression. -/
def sampleRunA : Except SstError WriteState :=
  prepare_write_components [[1]] 1 0 Compressor.none

def sampleStA : WriteState :=
  match sampleRunA with
  | .ok st => st
  | .error _ => default

/-! ## Lemmas about the TOC reader -/

theorem splitLines_ne_nil (s : List Char) : splitLines s ≠ [] := by
  induction s with
  | nil => simp [splitLines]
  | cons c rest ih =>
      simp only [splitLines]
      split
      · simp
      · cases h : splitLines rest with
        | nil => exact absurd h ih
        | cons l ls => simp [h]

theorem splitLines_append_newline (s : List Char) :
    splitLines (s ++ ['\n']) = splitLines s ++ [[]] := by
  induction s with
  | nil => simp [splitLines]
  | cons c rest ih =>
      simp only [List.cons_append, splitLines]
      split
      · simp [ih]
      · cases h : splitLines rest with
        | nil => exact absurd h (splitLines_ne_nil rest)
        | cons l ls =>
            have h2 : splitLines (rest ++ ['\n']) = (l :: ls) ++ [[]] := by
              rw [ih, h]
            simp [h, h2]

theorem toc_fold_append_empty (lines : List (List Char)) (acc : List ComponentType) :
    toc_fold (lines ++ [[]]) acc = toc_fold lines acc := by
  induction lines generalizing acc with
  | nil => simp [toc_fold]
  | cons c rest ih =>
      simp only [List.cons_append, toc_fold]
      split
      · exact ih acc
      · cases reverse_map (String.mk c) with
        | some k => exact ih (insert_component acc k)
        | none => rfl

theorem toc_fold_all_empty (lines : List (List Char)) (acc : List ComponentType)
    (h : ∀ l ∈ lines, l = []) : toc_fold lines acc = .ok acc := by
  induction lines generalizing acc with
  | nil => rfl
  | cons c rest ih =>
      have hc : c = [] := h c (by simp)
      simp only [toc_fold, hc, if_pos rfl]
      exact ih acc (fun l hl => h l (by simp [hl]))

theorem toc_fold_unrecognized (lines : List (List Char)) (acc : List ComponentType)
    (h : ∃ l ∈ lines, l ≠ [] ∧ reverse_map (String.mk l) = none) :
    ∃ bad ∈ lines, bad ≠ [] ∧ reverse_map (String.mk bad) = none ∧
      toc_fold lines acc =
        .error (.malformed ("Unrecognized TOC component: " ++ String.mk bad)) := by
  induction lines generalizing acc with
  | nil => simp at h
  | cons c rest ih =>
      by_cases hc : c = []
      · obtain ⟨l, hl, hne, hrm⟩ := h
        have hlr : l ∈ rest := by
          rcases List.mem_cons.mp hl with h1 | h1
          · exact absurd (h1 ▸ hc) hne
          · exact h1
        obtain ⟨bad, hb, hbne, hbrm, hfold⟩ := ih acc ⟨l, hlr, hne, hrm⟩
        exact ⟨bad, by simp [hb], hbne, hbrm, by simp [toc_fold, hc, hfold]⟩
      · cases hrm : reverse_map (String.mk c) with
        | none =>
            refine ⟨c, by simp, hc, hrm, ?_⟩
            simp [toc_fold, hc, hrm]
        | some k =>
            obtain ⟨l, hl, hne, hlrm⟩ := h
            have hlr : l ∈ rest := by
              rcases List.mem_cons.mp hl with h1 | h1
              · rw [h1] at hlrm; rw [hlrm] at hrm; exact absurd hrm (by simp)
              · exact h1
            obtain ⟨bad, hb, hbne, hbrm, hfold⟩ :=
              ih (insert_component acc k) ⟨l, hlr, hne, hlrm⟩
            exact ⟨bad, by simp [hb], hbne, hbrm, by simp [toc_fold, hc, hrm, hfold]⟩

/-! ## Lemmas about `read_indexes` -/

theorem readExactS_error_shape {s : List Nat} {n : Nat} {e : SstError} {r : List Nat}
    (h : readExactS s n = (.error e, r)) :
    (∃ g ex, e = .bufsizeMismatch g ex) ∧ r = [] := by
  unfold readExactS at h
  simp only [] at h
  split at h
  · rename_i hlt
    rw [List.length_take] at hlt
    injection h with h1 h2
    constructor
    · exact ⟨_, _, (Except.error.injEq _ _).mp h1.symm⟩
    · rw [← h2]
      exact List.drop_eq_nil_of_le (by omega)
  · injection h with h1 h2
    exact absurd h1 (by simp)

theorem parseIndexEntry_error_shape {s : List Nat} {e : SstError} {r : List Nat}
    (h : parseIndexEntry s = (.error e, r)) :
    (∃ g ex, e = .bufsizeMismatch g ex) ∧ r = [] := by
  unfold parseIndexEntry at h
  split at h
  · rename_i heq
    injection h with h1 h2
    obtain ⟨hs, hr⟩ := readExactS_error_shape heq
    injection h1 with h1
    exact ⟨h1 ▸ hs, h2 ▸ hr⟩
  · split at h
    · rename_i heq
      injection h with h1 h2
      obtain ⟨hs, hr⟩ := readExactS_error_shape heq
      injection h1 with h1
      exact ⟨h1 ▸ hs, h2 ▸ hr⟩
    · split at h
      · rename_i heq
        injection h with h1 h2
        obtain ⟨hs, hr⟩ := readExactS_error_shape heq
        injection h1 with h1
        exact ⟨h1 ▸ hs, h2 ▸ hr⟩
      · split at h
        · rename_i heq
          injection h with h1 h2
          obtain ⟨hs, hr⟩ := readExactS_error_shape heq
          injection h1 with h1
          exact ⟨h1 ▸ hs, h2 ▸ hr⟩
        · split at h
          · rename_i heq
            injection h with h1 h2
            obtain ⟨hs, hr⟩ := readExactS_error_shape heq
            injection h1 with h1
            exact ⟨h1 ▸ hs, h2 ▸ hr⟩
          · injection h with h1 h2
            exact absurd h1 (by simp)

theorem read_indexes_loop_ok (q : Nat) : ∀ (s : List Nat) (acc : List IndexEntry),
    ∃ es, read_indexes_loop q s acc = .ok es ∧ es.length ≤ acc.length + q := by
  induction q with
  | zero => exact fun s acc => ⟨acc, rfl, by omega⟩
  | succ q ih =>
      intro s acc
      unfold read_indexes_loop
      cases hp : parseIndexEntry s with
      | mk res rest =>
          cases res with
          | ok e =>
              obtain ⟨es, hes, hlen⟩ := ih rest (acc ++ [e])
              refine ⟨es, hes, ?_⟩
              simp at hlen
              omega
          | error err =>
              obtain ⟨⟨g, ex, hshape⟩, hrest⟩ := parseIndexEntry_error_shape hp
              subst hshape
              subst hrest
              exact ⟨acc, by simp, by omega⟩

/-! ## Lemmas about the partition loop -/

theorem write_partitions_ok {keys : List (List Nat)} : ∀ {st r : WriteState},
    write_partitions st keys = .ok r →
    (∀ k ∈ keys, k.length < 65536) ∧ r = keys.foldl write_one_partition_pure st := by
  induction keys with
  | nil =>
      intro st r h
      injection h with h
      exact ⟨by simp, h.symm⟩
  | cons k ks ih =>
      intro st r h
      unfold write_partitions write_one_partition at h
      by_cases hk : 65536 ≤ k.length
      · rw [if_pos hk] at h
        exact absurd h (by simp)
      · rw [if_neg hk] at h
        obtain ⟨hbound, hr⟩ :=
          ih (show write_partitions (write_one_partition_pure st k) ks = .ok r from h)
        refine ⟨?_, by simpa using hr⟩
        intro l hl
        rcases List.mem_cons.mp hl with h1 | h1
        · subst h1; omega
        · exact hbound l h1

theorem foldl_write_one_pure (keys : List (List Nat)) : ∀ (st : WriteState),
    (keys.foldl write_one_partition_pure st).components = st.components ∧
    (keys.foldl write_one_partition_pure st).summary.header = st.summary.header ∧
    (keys.foldl write_one_partition_pure st).summary.positions = st.summary.positions ∧
    (keys.foldl write_one_partition_pure st).summary.keys_written
      = st.summary.keys_written + keys.length ∧
    (keys.foldl write_one_partition_pure st).index_offset
      = st.index_offset + (keys.map index_entry_disk_size).sum ∧
    (keys.foldl write_one_partition_pure st).summary.entries
      = st.summary.entries ++
        loop_entries st.summary.header.min_index_interval
          st.summary.keys_written st.index_offset keys := by
  induction keys with
  | nil => intro st; simp [loop_entries]
  | cons k ks ih =>
      intro st
      obtain ⟨h1, h2, h3, h4, h5, h6⟩ := ih (write_one_partition_pure st k)
      have hw : (write_one_partition_pure st k).components = st.components ∧
          (write_one_partition_pure st k).summary.header = st.summary.header ∧
          (write_one_partition_pure st k).summary.positions = st.summary.positions ∧
          (write_one_partition_pure st k).summary.keys_written
            = st.summary.keys_written + 1 ∧
          (write_one_partition_pure st k).index_offset
            = st.index_offset + index_entry_disk_size k ∧
          (write_one_partition_pure st k).summary.entries
            = st.summary.entries ++
              (if st.summary.keys_written % st.summary.header.min_index_interval = 0
               then [⟨k, st.index_offset⟩] else []) := by
        unfold write_one_partition_pure maybe_add_summary_entry
        split <;> simp
      obtain ⟨w1, w2, w3, w4, w5, w6⟩ := hw
      simp only [List.foldl_cons]
      refine ⟨h1.trans w1, h2.trans w2, h3.trans w3, ?_, ?_, ?_⟩
      · rw [h4, w4]; simp; omega
      · rw [h5, w5]; simp [List.map_cons]; omega
      · rw [h6, w6, w2, w4, w5]
        rw [List.append_assoc]
        congr 1

theorem foldl_first_some (keys : List (List Nat)) : ∀ (st : WriteState) (a : List Nat),
    st.first_key = some a →
    (keys.foldl write_one_partition_pure st).first_key = some a ∧
    (keys.foldl write_one_partition_pure st).last_key
      = (match keys.getLast? with | some x => some x | none => st.last_key) := by
  induction keys with
  | nil => intro st a h; exact ⟨h, rfl⟩
  | cons k ks ih =>
      intro st a h
      have hw1 : (write_one_partition_pure st k).first_key = some a := by
        simp [write_one_partition_pure, h]
      have hw2 : (write_one_partition_pure st k).last_key = some k := by
        simp [write_one_partition_pure, h]
      obtain ⟨r1, r2⟩ := ih (write_one_partition_pure st k) a hw1
      simp only [List.foldl_cons]
      refine ⟨r1, ?_⟩
      rw [r2, hw2]
      cases ks with
      | nil => simp
      | cons x xs =>
          rw [List.getLast?_cons_cons]
          cases hx : (x :: xs).getLast? with
          | none => rw [List.getLast?_eq_none_iff] at hx; exact absurd hx (by simp)
          | some y => rfl

theorem foldl_first_none (keys : List (List Nat)) (st : WriteState)
    (hf : st.first_key = none) (hl : st.last_key = none) :
    (keys.foldl write_one_partition_pure st).first_key = keys.head? ∧
    (keys.foldl write_one_partition_pure st).last_key = (keys.drop 1).getLast? := by
  cases keys with
  | nil => exact ⟨hf, hl⟩
  | cons k ks =>
      have hw1 : (write_one_partition_pure st k).first_key = some k := by
        simp [write_one_partition_pure, hf]
      have hw2 : (write_one_partition_pure st k).last_key = none := by
        simp [write_one_partition_pure, hf, hl]
      obtain ⟨r1, r2⟩ := foldl_first_some ks (write_one_partition_pure st k) k hw1
      simp only [List.foldl_cons]
      refine ⟨by simpa using r1, ?_⟩
      rw [r2, hw2]
      simp only [List.drop_succ_cons, List.drop_zero]
      cases hx : ks.getLast? <;> rfl

theorem index_offset_of_zero (keys : List (List Nat)) : index_offset_of keys 0 = 0 := by
  simp [index_offset_of]

theorem index_offset_of_cons (k : List Nat) (ks : List (List Nat)) (m : Nat) :
    index_offset_of (k :: ks) (m + 1) = index_entry_disk_size k + index_offset_of ks m := by
  simp [index_offset_of, List.take_succ_cons]

theorem loop_entries_eq_cd (keys : List (List Nat)) : ∀ (c o : Nat),
    loop_entries 128 c o keys = loop_entries_cd ((128 - c % 128) % 128) o keys := by
  induction keys with
  | nil => intro c o; cases h : (128 - c % 128) % 128 <;> rfl
  | cons k ks ih =>
      intro c o
      by_cases hc : c % 128 = 0
      · have hd : (128 - c % 128) % 128 = 0 := by omega
        have hd1 : (128 - (c + 1) % 128) % 128 = 127 := by omega
        rw [hd]
        simp only [loop_entries, loop_entries_cd, hc, if_pos rfl]
        rw [ih (c + 1), hd1]
        rfl
      · have hd : (128 - c % 128) % 128 = (128 - c % 128 - 1) + 1 := by omega
        have hd1 : (128 - (c + 1) % 128) % 128 = 128 - c % 128 - 1 := by omega
        rw [hd]
        simp only [loop_entries, loop_entries_cd, hc, if_neg hc]
        rw [ih (c + 1), hd1]
        rfl

theorem getD_cons_of_eq {α : Type} (k : α) (ks : List α) (d : α) {i j : Nat} (h : i = j + 1) :
    (k :: ks).getD i d = ks.getD j d := by subst h; exact List.getD_cons_succ

theorem index_offset_of_cons_of_eq (k : List Nat) (ks : List (List Nat)) {i j : Nat}
    (h : i = j + 1) :
    index_offset_of (k :: ks) i = index_entry_disk_size k + index_offset_of ks j := by
  subst h; exact index_offset_of_cons k ks j

theorem loop_entries_cd_spec (keys : List (List Nat)) : ∀ (d o : Nat), d ≤ 127 →
    loop_entries_cd d o keys =
      (List.range ((keys.length + 127 - d) / 128)).map
        (fun a => ⟨keys.getD (d + 128 * a) [],
                   o + index_offset_of keys (d + 128 * a)⟩) := by
  induction keys with
  | nil =>
      intro d o hd
      have h0 : (([] : List (List Nat)).length + 127 - d) / 128 = 0 := by simp; omega
      rw [h0]
      cases d <;> rfl
  | cons k ks ih =>
      intro d o hd
      cases d with
      | zero =>
          have hcount : ((k :: ks).length + 127 - 0) / 128 = ks.length / 128 + 1 := by
            simp only [List.length_cons]; omega
          rw [hcount, List.range_succ_eq_map]
          simp only [loop_entries_cd, List.map_cons, List.map_map]
          have hcount2 : (ks.length + 127 - 127) / 128 = ks.length / 128 := by omega
          rw [ih 127 (o + index_entry_disk_size k) (by omega), hcount2]
          simp only [List.cons.injEq]
          refine ⟨?_, ?_⟩
          · simp [index_offset_of]
          · apply List.map_congr_left
            intro a _
            simp only [Function.comp_apply, Nat.succ_eq_add_one, SummaryEntry.mk.injEq]
            refine ⟨(getD_cons_of_eq k ks []
              (show 0 + 128 * (a + 1) = (127 + 128 * a) + 1 by omega)).symm, ?_⟩
            rw [index_offset_of_cons_of_eq k ks
              (show 0 + 128 * (a + 1) = (127 + 128 * a) + 1 by omega)]
            omega
      | succ e =>
          have hcount : ((k :: ks).length + 127 - (e + 1)) / 128
              = (ks.length + 127 - e) / 128 := by
            simp only [List.length_cons]; omega
          rw [hcount]
          simp only [loop_entries_cd]
          rw [ih e (o + index_entry_disk_size k) (by omega)]
          apply List.map_congr_left
          intro a _
          simp only [SummaryEntry.mk.injEq]
          refine ⟨(getD_cons_of_eq k ks [] (show e + 1 + 128 * a = (e + 128 * a) + 1 by omega)).symm, ?_⟩
          rw [index_offset_of_cons_of_eq k ks (show e + 1 + 128 * a = (e + 128 * a) + 1 by omega)]
          omega

/-- The partition loop started fresh (`keys_written = 0`, index offset 0,
interval 128) samples exactly the keys at indices 0, 128, 256, …, with the
index-file offsets at which their index records begin. -/
theorem loop_entries_fresh (keys : List (List Nat)) (o : Nat) :
    loop_entries 128 0 o keys =
      (List.range ((keys.length + 127) / 128)).map
        (fun a => ⟨keys.getD (128 * a) [], o + index_offset_of keys (128 * a)⟩) := by
  rw [loop_entries_eq_cd, show (128 - 0 % 128) % 128 = 0 by omega,
      loop_entries_cd_spec keys 0 o (by omega)]
  simp

theorem seal_fold (es : List SummaryEntry) : ∀ (ps : List Nat) (m : Nat),
    es.foldl (fun acc e => (acc.1 ++ [acc.2], acc.2 + (e.key.length + 8))) (ps, m) =
      (ps ++ (List.range es.length).map
         (fun i => m + summary_entries_size_sum (es.take i)),
       m + summary_entries_size_sum es) := by
  induction es with
  | nil => intro ps m; simp [summary_entries_size_sum]
  | cons e es ih =>
      intro ps m
      simp only [List.foldl_cons]
      rw [ih (ps ++ [m]) (m + (e.key.length + 8))]
      have hr : (List.range (e :: es).length).map
            (fun i => m + summary_entries_size_sum ((e :: es).take i))
          = m :: (List.range es.length).map
              (fun i => m + (e.key.length + 8) + summary_entries_size_sum (es.take i)) := by
        rw [show (e :: es).length = es.length + 1 from rfl, List.range_succ_eq_map]
        simp only [List.map_cons, List.map_map]
        simp only [List.cons.injEq]
        refine ⟨?_, ?_⟩
        · simp [summary_entries_size_sum]
        · apply List.map_congr_left
          intro a _
          simp only [Function.comp_apply, Nat.succ_eq_add_one, List.take_succ_cons]
          simp only [summary_entries_size_sum, List.map_cons, List.sum_cons]
          omega
      rw [hr]
      simp only [Prod.mk.injEq]
      refine ⟨by simp, ?_⟩
      simp [summary_entries_size_sum]
      omega

theorem mem_insert_component {a c : ComponentType} {cs : List ComponentType} :
    a ∈ insert_component cs c ↔ a ∈ cs ∨ a = c := by
  unfold insert_component
  split
  · rename_i hc
    constructor
    · exact Or.inl
    · rintro (h | h)
      · exact h
      · exact h ▸ hc
  · simp [List.mem_append]

theorem mem_insert_components {a : ComponentType} {L cs : List ComponentType} :
    a ∈ insert_components cs L ↔ a ∈ cs ∨ a ∈ L := by
  induction L generalizing cs with
  | nil => simp [insert_components]
  | cons c L ih =>
      unfold insert_components at ih ⊢
      simp only [List.foldl_cons]
      rw [ih, mem_insert_component]
      simp only [List.mem_cons]
      tauto

def final_insertions : List ComponentType :=
  [ComponentType.TOC, ComponentType.Statistics, ComponentType.Digest,
   ComponentType.Index, ComponentType.Summary, ComponentType.Data]

theorem do_write_ok_elim {st0 : WriteState} {keys : List (List Nat)} {est : Nat}
    {fp : ℚ} {st : WriteState}
    (h : do_write_components st0 keys est fp = .ok st) :
    ∃ s0 st2 sealed,
      prepare_summary est = .ok s0 ∧
      write_partitions
        ⟨(if fp ≠ 1 then insert_component st0.components ComponentType.Filter
          else st0.components), s0, 0, none, none⟩ keys = .ok st2 ∧
      seal_summary st2.summary st2.first_key st2.last_key = .ok sealed ∧
      st = { st2 with
             summary := sealed,
             components := insert_components st2.components final_insertions } := by
  unfold do_write_components at h
  simp only [] at h
  by_cases hf : fp ≠ 1
  · rw [if_pos hf] at h
    rw [if_pos hf]
    split at h
    · exact absurd h (by simp)
    · rename_i s0 heq0
      split at h
      · exact absurd h (by simp)
      · rename_i st2 heq2
        split at h
        · exact absurd h (by simp)
        · rename_i sealed heq3
          injection h with h
          exact ⟨s0, st2, sealed, heq0, heq2, heq3, h.symm⟩
  · rw [if_neg hf] at h
    rw [if_neg hf]
    split at h
    · exact absurd h (by simp)
    · rename_i s0 heq0
      split at h
      · exact absurd h (by simp)
      · rename_i st2 heq2
        split at h
        · exact absurd h (by simp)
        · rename_i sealed heq3
          injection h with h
          exact ⟨s0, st2, sealed, heq0, heq2, heq3, h.symm⟩

theorem prepare_write_ok_elim {keys : List (List Nat)} {est : Nat} {fp : ℚ}
    {comp : Compressor} {st : WriteState}
    (h : prepare_write_components keys est fp comp = .ok st) :
    ∃ s0 st2 sealed,
      prepare_summary est = .ok s0 ∧
      write_partitions ⟨initial_components fp comp, s0, 0, none, none⟩ keys = .ok st2 ∧
      seal_summary st2.summary st2.first_key st2.last_key = .ok sealed ∧
      st = { st2 with
             summary := sealed,
             components := insert_components st2.components final_insertions } := by
  unfold prepare_write_components at h
  by_cases hc : comp = Compressor.none
  · rw [if_pos hc] at h
    obtain ⟨s0, st2, sealed, h0, h2, h3, h4⟩ := do_write_ok_elim h
    refine ⟨s0, st2, sealed, h0, ?_, h3, h4⟩
    have hcomps : (if fp ≠ 1 then
          insert_component (insert_component (default : WriteState).components ComponentType.CRC)
            ComponentType.Filter
        else insert_component (default : WriteState).components ComponentType.CRC)
        = initial_components fp comp := by
      unfold initial_components
      rw [hc]
      by_cases hf : fp ≠ 1
      · rw [if_pos hf, if_pos hf, if_pos rfl]
        rfl
      · rw [if_neg hf, if_neg hf, if_pos rfl]
        rfl
    rw [← hcomps]
    exact h2
  · rw [if_neg hc] at h
    obtain ⟨s0, st2, sealed, h0, h2, h3, h4⟩ := do_write_ok_elim h
    refine ⟨s0, st2, sealed, h0, ?_, h3, h4⟩
    have hcomps : (if fp ≠ 1 then
          insert_component
            (insert_component (default : WriteState).components ComponentType.CompressionInfo)
            ComponentType.Filter
        else insert_component (default : WriteState).components ComponentType.CompressionInfo)
        = initial_components fp comp := by
      unfold initial_components
      rw [if_neg hc]
      by_cases hf : fp ≠ 1
      · rw [if_pos hf, if_pos hf]
        rfl
      · rw [if_neg hf, if_neg hf]
        rfl
    rw [← hcomps]
    exact h2

theorem prepare_summary_ok_elim {est : Nat} {s0 : Summary}
    (h : prepare_summary est = .ok s0) :
    1 ≤ est ∧
    s0 = { empty_summary with
           header := { empty_summary.header with
                       min_index_interval := 128, sampling_level := 128 } } := by
  unfold prepare_summary at h
  split at h
  · exact absurd h (by simp)
  · rename_i h1
    simp only [] at h
    by_cases hbig : 4294967295 < est / BASE_SAMPLING_LEVEL +
        (if est % BASE_SAMPLING_LEVEL = 0 then 0 else 1)
    · rw [if_pos hbig] at h
      exact absurd h (by simp)
    · rw [if_neg hbig] at h
      injection h with h
      exact ⟨by omega, h.symm⟩

theorem flatMap_u32LE_length (l : List Nat) : (l.flatMap u32LE).length = 4 * l.length := by
  induction l with
  | nil => rfl
  | cons x xs ih =>
      simp only [List.flatMap_cons, List.length_append, ih, u32LE]
      simp
      omega

theorem seal_summary_ok_elim {s : Summary} {fk lk : Option (List Nat)} {sealed : Summary}
    (h : seal_summary s fk lk = .ok sealed) :
    ∃ fkv, fk = some fkv ∧
      sealed.entries = s.entries ∧
      sealed.positions = s.positions ++ (List.range s.entries.length).map
        (fun i => s.entries.length * 4 + summary_entries_size_sum (s.entries.take i)) ∧
      sealed.header.size = s.entries.length ∧
      sealed.header.size_at_full_sampling = s.entries.length ∧
      sealed.header.memory_size
        = s.entries.length * 4 + summary_entries_size_sum s.entries ∧
      sealed.header.min_index_interval = s.header.min_index_interval ∧
      sealed.first_key = fkv ∧
      sealed.last_key = lk.getD fkv := by
  unfold seal_summary at h
  simp only [] at h
  rw [seal_fold] at h
  cases fk with
  | none => simp at h
  | some fkv =>
      simp only [] at h
      injection h with h
      subst h
      exact ⟨fkv, rfl, rfl, rfl, rfl, rfl, rfl, rfl, rfl, by cases lk <;> rfl⟩

/-- The complete characterisation of a successful `prepare_write_components`
run: the sealed summary's entries, positions, header fields, first/last
keys, and the final component set. -/
theorem prepare_write_run_spec {keys : List (List Nat)} {est : Nat} {fp : ℚ}
    {comp : Compressor} {st : WriteState}
    (h : prepare_write_components keys est fp comp = .ok st) :
    ∃ fkv,
      keys.head? = some fkv ∧
      st.summary.entries = (List.range ((keys.length + 127) / 128)).map
        (fun a => ⟨keys.getD (128 * a) [], index_offset_of keys (128 * a)⟩) ∧
      st.summary.positions = (List.range st.summary.entries.length).map
        (fun i => st.summary.entries.length * 4
          + summary_entries_size_sum (st.summary.entries.take i)) ∧
      st.summary.header.min_index_interval = 128 ∧
      st.summary.header.size = st.summary.entries.length ∧
      st.summary.header.size_at_full_sampling = st.summary.entries.length ∧
      st.summary.header.memory_size
        = st.summary.entries.length * 4 + summary_entries_size_sum st.summary.entries ∧
      st.summary.first_key = fkv ∧
      st.summary.last_key = ((keys.drop 1).getLast?).getD fkv ∧
      st.components = insert_components (initial_components fp comp) final_insertions := by
  obtain ⟨s0, st2, sealed, h0, h2, h3, h4⟩ := prepare_write_ok_elim h
  obtain ⟨hest, hs0⟩ := prepare_summary_ok_elim h0
  obtain ⟨hbound, hst2⟩ := write_partitions_ok h2
  subst hs0
  obtain ⟨f1, f2, f3, f4, f5, f6⟩ :=
    foldl_write_one_pure keys ⟨initial_components fp comp,
      { empty_summary with
        header := { empty_summary.header with
                    min_index_interval := 128, sampling_level := 128 } }, 0, none, none⟩
  obtain ⟨g1, g2⟩ :=
    foldl_first_none keys ⟨initial_components fp comp,
      { empty_summary with
        header := { empty_summary.header with
                    min_index_interval := 128, sampling_level := 128 } }, 0, none, none⟩
      rfl rfl
  rw [← hst2] at f1 f2 f3 f4 f5 f6 g1 g2
  obtain ⟨fkv, e0, e1, e2, e3, e4, e5, e6, e7, e8⟩ := seal_summary_ok_elim h3
  have hstsum : st.summary = sealed := by rw [h4]
  have hstcomps : st.components = insert_components st2.components final_insertions := by
    rw [h4]
  have hentries : st2.summary.entries
      = (List.range ((keys.length + 127) / 128)).map
          (fun a => ⟨keys.getD (128 * a) [], index_offset_of keys (128 * a)⟩) := by
    rw [f6]
    simp only [empty_summary, List.nil_append]
    rw [loop_entries_fresh]
    apply List.map_congr_left
    intro a _
    simp
  refine ⟨fkv, ?_, ?_, ?_, ?_, ?_, ?_, ?_, ?_, ?_, ?_⟩
  · rw [← g1, ← e0]
  · rw [hstsum, e1, hentries]
  · rw [hstsum, e2, e1, f3]
    simp [empty_summary]
  · rw [hstsum, e6, f2]
  · rw [hstsum, e3, e1]
  · rw [hstsum, e4, e1]
  · rw [hstsum, e5, e1]
  · rw [hstsum, e7]
  · rw [hstsum, e8, g2]
  · rw [hstcomps, f1]

/-! ## The claims -/

/-- C1 (counterexample): loading with Filter.db absent does NOT fail with a
distinct file-not-found error kind — the catch site throws
`malformed_sstable_exception` (the `malformed` kind, which the spec reserves
for structural violations), carrying `<path>: file not found`. -/
theorem c1_counterexample :
    sstable_read_simple (fun _ => FileResult.absent) "la-1-big-Filter.db"
      (fun _ => Except.ok 0) 0
      = .error (.malformed "la-1-big-Filter.db: file not found") := by
  decide

/-- C1 (amended): for every `read_simple` of a declared component and every
`read_toc` where the component file is absent, the operation fails with
`malformed_sstable` whose message is the missing path followed by
`: file not found`; there is no separate file_not_found error kind. -/
theorem c1_absent_file_malformed_not_found :
    (∀ (α : Type) (fs : String → FileResult) (path : String)
        (p : List Char → Except SstError α) (cur : α),
        fs path = FileResult.absent →
        sstable_read_simple fs path p cur
          = .error (.malformed (path ++ ": file not found")))
    ∧ (∀ (fs : String → FileResult) (path : String),
        fs path = FileResult.absent →
        sstable_read_toc fs path
          = .error (.malformed (path ++ ": file not found"))) := by
  constructor
  · intro α fs path p cur h
    unfold sstable_read_simple openRead catch_not_found
    rw [h]
    rfl
  · intro fs path h
    unfold sstable_read_toc openRead catch_not_found
    rw [h]
    rfl

/-- C1 (witness): the amended statement at a concrete missing TOC file. -/
theorem c1_witness :
    sstable_read_toc (fun _ => FileResult.absent) "la-1-big-TOC.txt"
      = .error (.malformed ("la-1-big-TOC.txt" ++ ": file not found")) :=
  c1_absent_file_malformed_not_found.2 (fun _ => FileResult.absent) "la-1-big-TOC.txt" rfl

/-- C4 (code bug evaluation): a `std::system_error` whose code is NOT
ENOENT (here EACCES = 13), raised while opening/reading the TOC or a simple
component, is caught by the `then_wrapped` catch site and never rethrown:
the returned future completes successfully (`.ok`), with the in-memory
component left at its previous value — the error is silently suppressed
instead of propagating. -/
theorem c4_error_swallowed_evaluation :
    sstable_read_toc (fun _ => FileResult.ioerr 13) "la-1-big-TOC.txt" = .ok []
    ∧ sstable_read_simple (fun _ => FileResult.ioerr 13) "la-1-big-Statistics.db"
        (fun _ => Except.ok 0) 7 = .ok 7 := by
  exact ⟨by decide, by decide⟩

/-- C5: TOC failure and tolerance cases.  (1) A read delivering 4 KiB or
more fails with `malformed_sstable("SSTable too big: 4096 bytes.")`;
(2) a TOC consisting of the single line `BogusComponent.db` fails with
`malformed_sstable("Unrecognized TOC component: BogusComponent.db")`;
(3) in general any line that is not a known component name fails the load
with that message for the first such line; (4) a TOC yielding no components
fails with `malformed_sstable("Empty TOC")`; (5) a trailing newline (empty
line) does not change the result. -/
theorem c5_read_toc_malformed_cases :
    (∀ contents : List Char, 4096 ≤ contents.length →
        read_toc_contents contents
          = .error (.malformed ("SSTable too big: " ++ toString 4096 ++ " bytes.")))
    ∧ read_toc_contents ("BogusComponent.db".toList)
        = .error (.malformed "Unrecognized TOC component: BogusComponent.db")
    ∧ (∀ contents : List Char, contents.length < 4096 →
        (∃ l ∈ splitLines contents, l ≠ [] ∧ reverse_map (String.mk l) = none) →
        ∃ bad ∈ splitLines contents, bad ≠ [] ∧ reverse_map (String.mk bad) = none ∧
          read_toc_contents contents
            = .error (.malformed ("Unrecognized TOC component: " ++ String.mk bad)))
    ∧ (∀ contents : List Char, contents.length < 4096 →
        (∀ l ∈ splitLines contents, l = []) →
        read_toc_contents contents = .error (.malformed "Empty TOC"))
    ∧ (∀ contents : List Char, contents.length + 1 < 4096 →
        read_toc_contents (contents ++ ['\n']) = read_toc_contents contents) := by
  refine ⟨?_, by decide, ?_, ?_, ?_⟩
  · intro contents hlen
    unfold read_toc_contents
    simp only []
    rw [show min contents.length 4096 = 4096 by omega]
    rfl
  · intro contents hlen hex
    obtain ⟨bad, hb, hbne, hbrm, hfold⟩ := toc_fold_unrecognized (splitLines contents) [] hex
    refine ⟨bad, hb, hbne, hbrm, ?_⟩
    unfold read_toc_contents
    simp only []
    rw [if_neg (by omega : ¬4096 ≤ min contents.length 4096), hfold]
  · intro contents hlen hall
    unfold read_toc_contents
    simp only []
    rw [if_neg (by omega : ¬4096 ≤ min contents.length 4096),
        toc_fold_all_empty (splitLines contents) [] hall]
    rfl
  · intro contents hlen
    unfold read_toc_contents
    simp only []
    rw [if_neg (by simp; omega : ¬4096 ≤ min (contents ++ ['\n']).length 4096),
        if_neg (by omega : ¬4096 ≤ min contents.length 4096),
        splitLines_append_newline, toc_fold_append_empty]

/-- C5 (witness): the size bound at a concrete 4096-character buffer. -/
theorem c5_witness :
    read_toc_contents (List.replicate 4096 'a')
      = .error (.malformed ("SSTable too big: " ++ toString 4096 ++ " bytes.")) :=
  c5_read_toc_malformed_cases.1 (List.replicate 4096 'a')
    (by rw [List.length_replicate])

/-- C9: `read_indexes(position, quantity)` seeks the index stream to
`position` (the loop runs on the bytes from that offset) and parses at
most `quantity` entries.  A `bufsize_mismatch` with the stream at EOF
(nothing left) exits the loop, returning the entries parsed so far without
error; the branch for a mismatch with the stream NOT at EOF returns that
`bufsize_mismatch` error (a `malformed_sstable` subclass) — and the final
conjunct shows that branch is unreachable in the byte-stream model, since a
failed parse always exhausts the stream (the source's own comment and the
spec's design notes flag the same point).  In particular every call
returns `.ok` with at most `quantity` entries. -/
theorem c9_read_indexes_eof :
    (∀ (data : List Nat) (position quantity : Nat),
        read_indexes data position quantity
          = read_indexes_loop quantity (data.drop position) [])
    ∧ (∀ (data : List Nat) (position quantity : Nat),
        ∃ es, read_indexes data position quantity = .ok es ∧ es.length ≤ quantity)
    ∧ (∀ (quantity : Nat) (s : List Nat) (acc : List IndexEntry) (g ex : Nat),
        parseIndexEntry s = (.error (.bufsizeMismatch g ex), []) →
        read_indexes_loop (quantity + 1) s acc = .ok acc)
    ∧ (∀ (quantity : Nat) (s : List Nat) (acc : List IndexEntry)
        (g ex : Nat) (rest : List Nat),
        parseIndexEntry s = (.error (.bufsizeMismatch g ex), rest) → rest ≠ [] →
        read_indexes_loop (quantity + 1) s acc = .error (.bufsizeMismatch g ex))
    ∧ (∀ (s : List Nat) (e : SstError) (rest : List Nat),
        parseIndexEntry s = (.error e, rest) → rest = []) := by
  refine ⟨fun _ _ _ => rfl, ?_, ?_, ?_, ?_⟩
  · intro data position quantity
    obtain ⟨es, hes, hlen⟩ := read_indexes_loop_ok quantity (data.drop position) []
    exact ⟨es, hes, by simpa using hlen⟩
  · intro quantity s acc g ex hp
    unfold read_indexes_loop
    rw [hp]
    rfl
  · intro quantity s acc g ex rest hp hne
    unfold read_indexes_loop
    rw [hp]
    have hre : rest.isEmpty = false := by
      cases rest
      · exact absurd rfl hne
      · rfl
    simp [hre]
  · exact fun s e rest hp => (parseIndexEntry_error_shape hp).2

/-- C9 (witness): a one-byte index file: the first read (2 bytes of key
length) comes back short, the stream is exhausted, and the loop returns the
empty entry list without error. -/
theorem c9_witness :
    parseIndexEntry [0] = (.error (.bufsizeMismatch 1 2), [])
    ∧ read_indexes_loop 1 [0] [] = .ok [] :=
  ⟨by decide, c9_read_indexes_eof.2.2.1 0 [0] [] 1 2 (by decide)⟩

/-- C10: `read_summary_entry(i)` throws `std::out_of_range` with message
`Invalid Summary index: <i>` when `i` is at or past `entries.length`, and
otherwise returns entry `i`; being a pure function of the summary in this
embedding, it leaves the summary unchanged. -/
theorem c10_read_summary_entry_bounds :
    ∀ (s : Summary) (i : Nat),
      (s.entries.length ≤ i →
        read_summary_entry s i
          = .error (.outOfRange ("Invalid Summary index: " ++ toString i)))
      ∧ ∀ (h : i < s.entries.length),
          read_summary_entry s i = .ok (s.entries.get ⟨i, h⟩) := by
  intro s i
  constructor
  · intro h
    unfold read_summary_entry
    rw [dif_pos h]
  · intro h
    unfold read_summary_entry
    rw [dif_neg (by omega)]

/-- C10 (witness): both branches on the single-entry summary of the sample
run. -/
theorem c10_witness :
    read_summary_entry sampleStA.summary 5
      = .error (.outOfRange ("Invalid Summary index: " ++ toString 5))
    ∧ read_summary_entry sampleStA.summary 0
      = .ok (sampleStA.summary.entries.get ⟨0, by decide⟩) :=
  ⟨(c10_read_summary_entry_bounds sampleStA.summary 5).1 (by decide),
   (c10_read_summary_entry_bounds sampleStA.summary 0).2 (by decide)⟩

theorem filter_mem_initial (fp : ℚ) (comp : Compressor) :
    ComponentType.Filter ∈ initial_components fp comp ↔ fp ≠ 1 := by
  unfold initial_components
  by_cases hf : fp ≠ 1
  · rw [if_pos hf]
    split <;> simp [hf]
  · rw [if_neg hf]
    split <;> simp [hf]

theorem crc_mem_initial (fp : ℚ) (comp : Compressor) :
    ComponentType.CRC ∈ initial_components fp comp ↔ comp = Compressor.none := by
  unfold initial_components
  by_cases hc : comp = Compressor.none
  · rw [if_pos hc]
    split <;> simp [hc]
  · rw [if_neg hc]
    split <;> simp [hc]

theorem compressioninfo_mem_initial (fp : ℚ) (comp : Compressor) :
    ComponentType.CompressionInfo ∈ initial_components fp comp
      ↔ comp ≠ Compressor.none := by
  unfold initial_components
  by_cases hc : comp = Compressor.none
  · rw [if_pos hc]
    split <;> simp [hc]
  · rw [if_neg hc]
    split <;> simp [hc]

/-- C2 (counterexample): after the single-partition sample run, the sealed
summary has one entry and ONE position — not two.  `seal_summary` pushes
exactly one position per entry; no trailing sentinel is kept in memory on
the write path. -/
theorem c2_counterexample :
    prepare_write_components [[1]] 1 0 Compressor.none = .ok sampleStA
    ∧ ¬ (sampleStA.summary.positions.length
          = sampleStA.summary.entries.length + 1) := by
  decide

/-- C2 (amended): immediately after the Summary is sealed the in-memory
positions vector has length exactly `entries.length` (the `+1` sentinel
exists only transiently while parsing a Summary file, never at seal time),
and persisting the Summary writes exactly those `entries.length` positions
(4 bytes each) — which is trivially "the first entries.length" of them. -/
theorem c2_positions_at_seal
    (keys : List (List Nat)) (est : Nat) (fp : ℚ) (comp : Compressor) (st : WriteState)
    (h : prepare_write_components keys est fp comp = .ok st) :
    st.summary.positions.length = st.summary.entries.length
    ∧ (summary_positions_on_disk st.summary).length
        = 4 * st.summary.entries.length := by
  obtain ⟨fkv, r1, r2, r3, r4, r5, r6, r7, r8, r9, r10⟩ := prepare_write_run_spec h
  have hlen : st.summary.positions.length = st.summary.entries.length := by
    rw [r3]
    simp
  refine ⟨hlen, ?_⟩
  unfold summary_positions_on_disk
  rw [flatMap_u32LE_length, hlen]

/-- C2 (witness): the amended statement at the sample run. -/
theorem c2_witness :
    sampleStA.summary.positions.length = sampleStA.summary.entries.length
    ∧ (summary_positions_on_disk sampleStA.summary).length
        = 4 * sampleStA.summary.entries.length :=
  c2_positions_at_seal [[1]] 1 0 Compressor.none sampleStA (by decide)

/-- C3 (counterexample): at the single-partition sample run (key `[1]`,
one entry of key length 1), `seal_summary` sets `memory_size` to
`4 * entries.length + Σ (key length + 8)` = 13, not the claim's
`Σ (key length + 8)` = 9: the claim's formula omits the
`size * sizeof(uint32_t)` term that accounts for the positions array. -/
theorem c3_counterexample :
    prepare_write_components [[1]] 1 0 Compressor.none = .ok sampleStA
    ∧ sampleStA.summary.header.memory_size = 13
    ∧ summary_entries_size_sum sampleStA.summary.entries = 9
    ∧ (13 : Nat) ≠ 9 := by
  decide

/-- C3 (amended): sealing sets `size` and `size_at_full_sampling` to
`entries.length`; sets `memory_size` to
`entries.length * 4 + Σ (entries[i].key.length + 8)` (the extra term is
`size * sizeof(uint32_t)` for the positions block); populates `positions`
cumulatively (`positions[i] = 4·n + Σ_{j<i} (key_j.length + 8)`); and
records the first and last partition keys, the last equal to the first for
a single-partition stream. -/
theorem c3_seal_summary_fields
    (keys : List (List Nat)) (est : Nat) (fp : ℚ) (comp : Compressor) (st : WriteState)
    (h : prepare_write_components keys est fp comp = .ok st) :
    st.summary.header.size = st.summary.entries.length
    ∧ st.summary.header.size_at_full_sampling = st.summary.entries.length
    ∧ st.summary.header.memory_size
        = st.summary.entries.length * 4 + summary_entries_size_sum st.summary.entries
    ∧ st.summary.positions
        = (List.range st.summary.entries.length).map
            (fun i => st.summary.entries.length * 4
              + summary_entries_size_sum (st.summary.entries.take i))
    ∧ (∀ k0 ks, keys = k0 :: ks →
        st.summary.first_key = k0 ∧ st.summary.last_key = (ks.getLast?).getD k0)
    ∧ (∀ k0, keys = [k0] → st.summary.last_key = st.summary.first_key) := by
  obtain ⟨fkv, r1, r2, r3, r4, r5, r6, r7, r8, r9, r10⟩ := prepare_write_run_spec h
  have hfl : ∀ k0 ks, keys = k0 :: ks →
      st.summary.first_key = k0 ∧ st.summary.last_key = (ks.getLast?).getD k0 := by
    intro k0 ks hk
    subst hk
    have hfkv : fkv = k0 := by
      have := r1
      simp only [List.head?_cons, Option.some.injEq] at this
      exact this.symm
    subst hfkv
    refine ⟨r8, ?_⟩
    rw [r9]
    rfl
  refine ⟨r5, r6, r7, r3, hfl, ?_⟩
  intro k0 hk
  obtain ⟨h1, h2⟩ := hfl k0 [] hk
  rw [h1, h2]
  rfl

/-- C3 (witness): the amended statement at the sample run. -/
theorem c3_witness :
    sampleStA.summary.header.size = sampleStA.summary.entries.length
    ∧ sampleStA.summary.header.memory_size
        = sampleStA.summary.entries.length * 4
          + summary_entries_size_sum sampleStA.summary.entries
    ∧ sampleStA.summary.last_key = sampleStA.summary.first_key := by
  have h := c3_seal_summary_fields [[1]] 1 0 Compressor.none sampleStA (by decide)
  exact ⟨h.1, h.2.2.1, h.2.2.2.2.2 [1] rfl⟩

/-- C6: the Filter component is present in the produced component set iff
the schema's bloom-filter false-positive probability is strictly below 1.
The source tests `filter_fp_chance != 1.0`; for a probability (≤ 1) that
is the same condition as `< 1`. -/
theorem c6_filter_presence
    (keys : List (List Nat)) (est : Nat) (fp : ℚ) (comp : Compressor) (st : WriteState)
    (hprob : fp ≤ 1) (h : prepare_write_components keys est fp comp = .ok st) :
    ComponentType.Filter ∈ st.components ↔ fp < 1 := by
  obtain ⟨fkv, r1, r2, r3, r4, r5, r6, r7, r8, r9, r10⟩ := prepare_write_run_spec h
  rw [r10, mem_insert_components, filter_mem_initial]
  constructor
  · rintro (hne | hfin)
    · exact lt_of_le_of_ne hprob hne
    · exact absurd hfin (by decide)
  · intro hlt
    exact Or.inl (ne_of_lt hlt)

/-- C6 (witness): the sample run with fp = 0 < 1. -/
theorem c6_witness :
    (0 : ℚ) ≤ 1
    ∧ (ComponentType.Filter ∈ sampleStA.components ↔ (0 : ℚ) < 1) :=
  ⟨by norm_num,
   c6_filter_presence [[1]] 1 0 Compressor.none sampleStA (by norm_num) (by decide)⟩

/-- C7: exactly one of CRC and CompressionInfo is present — CRC iff the
compressor is `none`, CompressionInfo iff it is not — and Digest is always
present. -/
theorem c7_crc_compression_exclusive
    (keys : List (List Nat)) (est : Nat) (fp : ℚ) (comp : Compressor) (st : WriteState)
    (h : prepare_write_components keys est fp comp = .ok st) :
    (ComponentType.CRC ∈ st.components ↔ comp = Compressor.none)
    ∧ (ComponentType.CompressionInfo ∈ st.components ↔ comp ≠ Compressor.none)
    ∧ ¬ (ComponentType.CRC ∈ st.components
          ∧ ComponentType.CompressionInfo ∈ st.components)
    ∧ (ComponentType.CRC ∈ st.components ∨ ComponentType.CompressionInfo ∈ st.components)
    ∧ ComponentType.Digest ∈ st.components := by
  obtain ⟨fkv, r1, r2, r3, r4, r5, r6, r7, r8, r9, r10⟩ := prepare_write_run_spec h
  rw [r10]
  have hcrc : ComponentType.CRC ∈ insert_components (initial_components fp comp)
      final_insertions ↔ comp = Compressor.none := by
    rw [mem_insert_components, crc_mem_initial]
    constructor
    · rintro (hc | hfin)
      · exact hc
      · exact absurd hfin (by decide)
    · exact Or.inl
  have hci : ComponentType.CompressionInfo ∈ insert_components (initial_components fp comp)
      final_insertions ↔ comp ≠ Compressor.none := by
    rw [mem_insert_components, compressioninfo_mem_initial]
    constructor
    · rintro (hc | hfin)
      · exact hc
      · exact absurd hfin (by decide)
    · exact Or.inl
  refine ⟨hcrc, hci, ?_, ?_, ?_⟩
  · rintro ⟨h1, h2⟩
    exact (hci.mp h2) (hcrc.mp h1)
  · by_cases hc : comp = Compressor.none
    · exact Or.inl (hcrc.mpr hc)
    · exact Or.inr (hci.mpr hc)
  · rw [mem_insert_components]
    exact Or.inr (by decide)

/-- C7 (witness): the uncompressed sample run carries CRC, no
CompressionInfo, and Digest. -/
theorem c7_witness :
    (ComponentType.CRC ∈ sampleStA.components ↔ Compressor.none = Compressor.none)
    ∧ (ComponentType.CompressionInfo ∈ sampleStA.components
        ↔ Compressor.none ≠ Compressor.none)
    ∧ ¬ (ComponentType.CRC ∈ sampleStA.components
          ∧ ComponentType.CompressionInfo ∈ sampleStA.components)
    ∧ (ComponentType.CRC ∈ sampleStA.components
        ∨ ComponentType.CompressionInfo ∈ sampleStA.components)
    ∧ ComponentType.Digest ∈ sampleStA.components :=
  c7_crc_compression_exclusive [[1]] 1 0 Compressor.none sampleStA (by decide)

/-- C8: for a stream of `n ≥ 1` partitions at the base sampling level 128,
the sealed summary has `⌈n/128⌉ = (n + 127) / 128` entries; entry `k`
holds the key at stream position `128·k` (the key at position 0 of each
sampling group is always sampled) and the byte offset in the Index file at
which that key's index record begins (each record occupying
`2 + key length + 8 + 4` bytes). -/
theorem c8_summary_sampling
    (keys : List (List Nat)) (est : Nat) (fp : ℚ) (comp : Compressor) (st : WriteState)
    (h : prepare_write_components keys est fp comp = .ok st) :
    1 ≤ keys.length
    ∧ st.summary.header.min_index_interval = 128
    ∧ st.summary.entries.length = (keys.length + 127) / 128
    ∧ (∀ k, k < (keys.length + 127) / 128 →
        st.summary.entries[k]?
          = some ⟨keys.getD (128 * k) [], index_offset_of keys (128 * k)⟩) := by
  obtain ⟨fkv, r1, r2, r3, r4, r5, r6, r7, r8, r9, r10⟩ := prepare_write_run_spec h
  have hne : keys ≠ [] := by
    intro hk
    rw [hk] at r1
    exact absurd r1 (by simp)
  refine ⟨?_, r4, ?_, ?_⟩
  · cases keys with
    | nil => exact absurd rfl hne
    | cons k ks => simp
  · rw [r2]
    simp
  · intro k hk
    rw [r2]
    rw [List.getElem?_map, List.getElem?_range hk]
    rfl

/-- C8 (witness): the single-partition sample run has one summary entry,
sampled at stream position 0 with index offset 0. -/
theorem c8_witness :
    1 ≤ ([[1]] : List (List Nat)).length
    ∧ sampleStA.summary.header.min_index_interval = 128
    ∧ sampleStA.summary.entries.length = (1 + 127) / 128 := by
  have h := c8_summary_sampling [[1]] 1 0 Compressor.none sampleStA (by decide)
  exact ⟨h.1, h.2.1, by simpa using h.2.2.1⟩

end Sstables
